import Mathlib

/-!
# Verification of `check_all_bible_text.py`

A shallow embedding, in Lean 4, of the KJV corpus checker
`root/bible/kjv/check_all_bible_text.py`, together with proofs about its
components: the text normalizer (`norm_text`, `norm_text_strict`), the diff
engine (`first_diff`), corpus discovery (`discover_books`,
`discover_chapters`), the local chapter reader, the reference fetcher with
its retry loop, and the `main` scan/report loop.

Modelling conventions:
* Python strings are Lean `String`s (sequences of `Char`); character-class
  predicates (`\s`, `\w`, `str.lower`) are modelled on their ASCII fragment,
  which is the fragment every concrete input below lives in.
* Filesystem and network are explicit parameters (a `World` structure and a
  response oracle), read-only during a run, exactly as the script treats them.
* `time.sleep` calls are recorded as a trace of millisecond durations where a
  claim mentions them; they have no other semantic content.
-/

/-- ASCII fragment of Python's `\s` character class
(space, tab, newline, carriage return, vertical tab, form feed). -/
def pyIsSpace (c : Char) : Bool :=
  c = ' ' || c = '\t' || c = '\n' || c = '\r' || c = '\x0b' || c = '\x0c'

/-- ASCII fragment of Python's `\w` character class:
letters, digits and the underscore. -/
def pyIsWord (c : Char) : Bool :=
  c.isAlphanum || c = '_'

/-- The four single-character `str.replace` calls of `norm_text`:
curly double quotes become `"`, curly single quotes become `'`. -/
def fixQuote (c : Char) : Char :=
  if c = '“' then '"'
  else if c = '”' then '"'
  else if c = '’' then '\''
  else if c = '‘' then '\''
  else c

theorem length_dropWhile_le {α : Type} (p : α → Bool) :
    ∀ l : List α, (l.dropWhile p).length ≤ l.length := by
  intro l
  induction l with
  | nil => simp [List.dropWhile]
  | cons c cs ih =>
    by_cases h : p c
    · simp [List.dropWhile, h]; omega
    · simp [List.dropWhile, h]

/-- State machine for `SPACE_RX.sub(" ", s)`, `SPACE_RX = re.compile(r"\s+")`:
the Boolean records whether we are inside a whitespace run, whose first
character alone is emitted, as a single space. -/
def subWSAux : Bool → List Char → List Char
  | _, [] => []
  | inRun, c :: cs =>
    if pyIsSpace c then
      if inRun then subWSAux true cs else ' ' :: subWSAux true cs
    else c :: subWSAux false cs

/-- `SPACE_RX.sub(" ", s)`:
every maximal run of whitespace is replaced by a single space. -/
def subWS (s : List Char) : List Char :=
  subWSAux false s

/-- Python `str.strip()`: remove leading and trailing whitespace. -/
def stripChars (s : List Char) : List Char :=
  ((s.dropWhile pyIsSpace).reverse.dropWhile pyIsSpace).reverse

/-- `norm_text` from the script: replace curly quotes by straight ones,
collapse whitespace runs to single spaces, strip the ends. -/
def norm_text (s : String) : String :=
  String.mk (stripChars (subWS (s.data.map fixQuote)))

/-- `PUNCT_RX.sub("", s)` for `PUNCT_RX = re.compile(r"[^\w\s]")`:
delete every character that is neither a word character nor whitespace. -/
def punctSub (s : List Char) : List Char :=
  s.filter (fun c => pyIsWord c || pyIsSpace c)

/-- `norm_text_strict` from the script: `norm_text`, then `PUNCT_RX.sub`,
then collapse/strip whitespace again, then lowercase. -/
def norm_text_strict (s : String) : String :=
  String.mk (((stripChars (subWS (punctSub (norm_text s).data))).map Char.toLower))

example : norm_text_strict "Let there be light." = norm_text_strict "Let there be light" := by
  decide

example : norm_text "  In  the\tbeginning " = "In the beginning" := by decide

/-- The loop body of `first_diff`, carrying the two original list lengths
(used by the synthetic length-mismatch diff) and the running 0-based index. -/
def first_diff_aux (locLen refLen : Nat) :
    Nat → List String → List String → Int × String × String
  | i, l :: ls, r :: rs =>
    if norm_text_strict l ≠ norm_text_strict r then (((i+1 : Nat) : Int), l, r)
    else first_diff_aux locLen refLen (i+1) ls rs
  | i, _, _ =>
    if locLen ≠ refLen then
      (((i+1 : Nat) : Int),
       "[local length=" ++ toString locLen ++ "]",
       "[ref length=" ++ toString refLen ++ "]")
    else (-1, "", "")

/-- `first_diff` from the script: first strict-normalized inequality within
the common prefix, else a synthetic length diff, else the `(-1, "", "")`
match sentinel. -/
def first_diff (loc ref : List String) : Int × String × String :=
  first_diff_aux loc.length ref.length 0 loc ref

example : first_diff ["a"] ["a."] = (-1, "", "") := by decide

example : first_diff ["a", "b"] ["a", "c"] = (2, "b", "c") := by decide

example : first_diff ["a", "b"] ["a"] = (2, "[local length=2]", "[ref length=1]") := by
  decide

/-- Parsed JSON values as produced by `json.load` / `response.json()`
(numbers restricted to integers; no claim involves fractional numbers). -/
inductive Json where
  | null
  | bool (b : Bool)
  | num (n : Int)
  | str (s : String)
  | arr (xs : List Json)
  | obj (kvs : List (String × Json))

mutual

/-- Python `repr` of a parsed-JSON value (ASCII fragment, no escaping). -/
def pyRepr : Json → String
  | .null => "None"
  | .bool true => "True"
  | .bool false => "False"
  | .num n => toString n
  | .str s => "'" ++ s ++ "'"
  | .arr xs => "[" ++ pyReprList xs ++ "]"
  | .obj kvs => "\x7b" ++ pyReprObj kvs ++ "\x7d"

/-- Comma-separated `repr`s of the elements of a Python list. -/
def pyReprList : List Json → String
  | [] => ""
  | [x] => pyRepr x
  | x :: y :: xs => pyRepr x ++ ", " ++ pyReprList (y :: xs)

/-- Comma-separated `'key': repr(value)` pairs of a Python dict. -/
def pyReprObj : List (String × Json) → String
  | [] => ""
  | [(k, v)] => "'" ++ k ++ "': " ++ pyRepr v
  | (k, v) :: kv :: kvs => "'" ++ k ++ "': " ++ pyRepr v ++ ", " ++ pyReprObj (kv :: kvs)

end

/-- Python `str` of a parsed-JSON value: a string is itself, anything else
renders as its `repr`. -/
def pyStr : Json → String
  | .str s => s
  | j => pyRepr j

/-- `v.get("text", "")` followed by `str(...)`: defined only when `v` is a
dict, since Python raises `AttributeError` otherwise. -/
def getTextField : Json → Option String
  | .obj kvs => some (pyStr ((kvs.lookup "text").getD (.str "")))
  | _ => none

/-- `read_local_chapter`'s verse extraction from the parsed file content
`data`: `data.get("verses", [])`, then either the tagged-record shape
(first element a dict) read through `.get("text", "")`, or the plain shape
read through `str`.  A non-dict `data`, a non-iterable `"verses"` value, or
a non-dict element in the tagged shape raises, which the caller counts as a
read error.  A string `"verses"` value iterates over its characters. -/
def read_verses_field : Json → Except String (List String)
  | .arr vs =>
    match vs with
    | .obj _ :: _ =>
      match vs.mapM getTextField with
      | some texts => .ok texts
      | none => .error "AttributeError"
    | _ => .ok (vs.map pyStr)
  | .str s => .ok (s.data.map (fun c => String.mk [c]))
  | _ => .error "TypeError"

/-- The whole of `read_local_chapter`'s extraction:
`data.get("verses", [])` needs `data` to be a dict, then the field is
handled by `read_verses_field`. -/
def read_local_verses (data : Json) : Except String (List String) :=
  match data with
  | .obj kvs => read_verses_field ((kvs.lookup "verses").getD (.arr []))
  | _ => .error "AttributeError"

/-- `fetch_ref_chapter`'s verse extraction from a decoded response body:
`js.get("verses", [])`, then `norm_text(str(v.get("text", "")))` for every
element, with no shape branching; any non-dict element raises, which the
retry loop counts as a failed attempt. -/
def extract_verses_field : Json → Except String (List String)
  | .arr vs =>
    match vs.mapM getTextField with
    | some texts => .ok (texts.map norm_text)
    | none => .error "AttributeError"
  | _ => .error "AttributeError"

/-- The whole of `fetch_ref_chapter`'s extraction:
`js.get("verses", [])` needs a dict, then the comprehension is
`extract_verses_field`. -/
def extract_ref_verses (js : Json) : Except String (List String) :=
  match js with
  | .obj kvs => extract_verses_field ((kvs.lookup "verses").getD (.arr []))
  | _ => .error "AttributeError"

/-- Digit-run consumer for Python `int(str)`: ASCII digits, with single
underscores allowed between digits. -/
def pyDigits : Nat → List Char → Option Nat
  | acc, [] => some acc
  | acc, c :: cs =>
    if c.isDigit then pyDigits (acc * 10 + (c.toNat - 48)) cs
    else if c = '_' then
      match cs with
      | d :: cs' => if d.isDigit then pyDigits (acc * 10 + (d.toNat - 48)) cs' else none
      | [] => none
    else none

/-- Unsigned part of Python `int(str)`: at least one leading digit. -/
def pyNat? : List Char → Option Nat
  | [] => none
  | c :: cs => if c.isDigit then pyDigits (c.toNat - 48) cs else none

/-- Python `int(str)` (ASCII fragment): strip whitespace, optional sign,
nonempty digit run; `none` models `ValueError`. -/
def pyInt? (s : String) : Option Int :=
  match stripChars s.data with
  | '+' :: cs => (pyNat? cs).map (fun n => (n : Int))
  | '-' :: cs => (pyNat? cs).map (fun n => -(n : Int))
  | cs => (pyNat? cs).map (fun n => (n : Int))

example : pyInt? "03" = some 3 := by decide

example : pyInt? " 10 " = some 10 := by decide

example : pyInt? "x1" = none := by decide

example : pyInt? "-2" = some (-2) := by decide

/-- The loop body of `discover_chapters`: keep names ending in `".json"`,
drop the five extension characters, parse the stem as an integer,
silently skipping parse failures. -/
def stem_int? (name : String) : Option Int :=
  if (".json" : String).data.isSuffixOf name.data then
    pyInt? (String.mk (name.data.take (name.data.length - 5)))
  else none

/-- `discover_chapters` from the script, as a function of the directory
listing: parse the `.json` stems and sort ascending.  Python's `sorted` is
modelled by insertion sort, which on `Int`'s total order produces the same
(unique) ascending reordering. -/
def discover_chapters (names : List String) : List Int :=
  List.insertionSort (fun a b => a ≤ b) (names.filterMap stem_int?)

example : discover_chapters ["10.json", "02.json", "readme.txt", "x.json"] = [2, 10] := by
  decide

/-- `KJV_BOOKS_IN_ORDER` from the script: the canonical 66-book order. -/
def KJV_BOOKS_IN_ORDER : List String := [
  "Genesis", "Exodus", "Leviticus", "Numbers", "Deuteronomy",
  "Joshua", "Judges", "Ruth", "1 Samuel", "2 Samuel",
  "1 Kings", "2 Kings", "1 Chronicles", "2 Chronicles", "Ezra",
  "Nehemiah", "Esther", "Job", "Psalms", "Proverbs",
  "Ecclesiastes", "Song of Solomon", "Isaiah", "Jeremiah", "Lamentations",
  "Ezekiel", "Daniel", "Hosea", "Joel", "Amos",
  "Obadiah", "Jonah", "Micah", "Nahum", "Habakkuk",
  "Zephaniah", "Haggai", "Zechariah", "Malachi",
  "Matthew", "Mark", "Luke", "John", "Acts",
  "Romans", "1 Corinthians", "2 Corinthians", "Galatians", "Ephesians",
  "Philippians", "Colossians", "1 Thessalonians", "2 Thessalonians", "1 Timothy",
  "2 Timothy", "Titus", "Philemon", "Hebrews", "James",
  "1 Peter", "2 Peter", "1 John", "2 John", "3 John",
  "Jude", "Revelation"]

/-- `discover_books` from the script, as a function of the set of directory
names present at the repo root: the canonical books that are present, in
canonical order. -/
def discover_books (dirs : List String) : List String :=
  KJV_BOOKS_IN_ORDER.filter (fun b => dirs.contains b)

example : discover_books ["Exodus", "notes", "Genesis"] = ["Genesis", "Exodus"] := by
  decide

/-- One scripted network interaction for one attempt of the retry loop:
either `requests.get` raised (connection error, timeout), or a response
arrived; a `none` body means `r.json()` raises. -/
inductive Resp where
  | netErr (msg : String)
  | resp (status : Nat) (body : Option Json)

/-- `RETRY_COUNT` from the script. -/
def RETRY_COUNT : Nat := 3

/-- `RETRY_SLEEP_SEC = 1.5`, in milliseconds. -/
def RETRY_SLEEP_MS : Nat := 1500

/-- The `time.sleep(2.0)` taken on HTTP 429, in milliseconds. -/
def RATE_SLEEP_MS : Nat := 2000

/-- The retry loop of `fetch_ref_chapter`.  `budget` counts the remaining
iterations of `for _ in range(RETRY_COUNT)`; `k` indexes the next request
issued to the oracle; `lastErr` mirrors the `last_err` variable (`none` is
Python's `None`).  The second component records every `time.sleep` of the
loop, in milliseconds.  Falling out of the loop raises
`RuntimeError(f"Failed to fetch ...: {last_err}")`, modelled as `.error
lastErr`. -/
def fetch_aux (oracle : Nat → Resp) :
    Nat → Nat → Option String → Except (Option String) (List String) × List Nat
  | 0, _, lastErr => (.error lastErr, [])
  | budget + 1, k, lastErr =>
    match oracle k with
    | .netErr msg =>
      let rest := fetch_aux oracle budget (k + 1) (some msg)
      (rest.1, RETRY_SLEEP_MS :: rest.2)
    | .resp status body =>
      if status = 429 then
        let rest := fetch_aux oracle budget (k + 1) lastErr
        (rest.1, RATE_SLEEP_MS :: rest.2)
      else if 400 ≤ status ∧ status < 600 then
        let rest := fetch_aux oracle budget (k + 1) (some ("HTTPError " ++ toString status))
        (rest.1, RETRY_SLEEP_MS :: rest.2)
      else
        match body with
        | none =>
          let rest := fetch_aux oracle budget (k + 1) (some "JSONDecodeError")
          (rest.1, RETRY_SLEEP_MS :: rest.2)
        | some js =>
          match extract_ref_verses js with
          | .ok vs => (.ok vs, [])
          | .error e =>
            let rest := fetch_aux oracle budget (k + 1) (some e)
            (rest.1, RETRY_SLEEP_MS :: rest.2)

/-- `fetch_ref_chapter` from the script, as a function of the network's
behaviour for this chapter: at most `RETRY_COUNT` attempts starting from
`last_err = None`. -/
def fetch_ref_chapter (oracle : Nat → Resp) :
    Except (Option String) (List String) × List Nat :=
  fetch_aux oracle RETRY_COUNT 0 none

/-- A mismatch record as appended by `main` (field order follows the dict
literal in the script). -/
structure MismatchRecord where
  book : String
  chapter : Int
  first_diff_verse : Int
  local_snippet : String
  ref_snippet : String
  local_verse_count : Nat
  ref_verse_count : Nat
deriving DecidableEq

/-- The run accumulators of `main`: the four counters and the mismatch
list (`len(mismatches)` is the mismatched count of the summary). -/
structure Summary where
  totals : Nat
  matched : Nat
  missing : Nat
  errors : Nat
  mismatches : List MismatchRecord
deriving DecidableEq

/-- A local chapter file: either `json.load` raises on it, or it parses. -/
inductive FileContent where
  | malformed (e : String)
  | parsed (data : Json)

/-- The fixed environment of one run: which repo-root entries are
directories, each book directory's listing, each file's content (`none`
means the file does not exist), and the network's response to the `k`-th
request made for a given chapter. -/
structure World where
  dirs : List String
  listing : String → List String
  file : String → String → Option FileContent
  responses : String → Int → Nat → Resp

/-- Python `f"{n:02}"`: decimal rendering left-padded with zeros to width
two (the sign counts toward the width). -/
def pyFormat02 (n : Int) : String :=
  let s := toString n
  if s.length < 2 then "0" ++ s else s

/-- The outcome of `read_local_chapter` for the caller. -/
inductive ReadOutcome where
  | notFound
  | readError (e : String)
  | ok (verses : List String)

/-- `read_local_chapter` from the script: try the zero-padded filename,
fall back to the unpadded one, raise `FileNotFoundError` when neither
exists, otherwise parse the file and extract the verse texts. -/
def read_local_chapter (w : World) (book : String) (ch : Int) : ReadOutcome :=
  let parse : FileContent → ReadOutcome := fun fc =>
    match fc with
    | .malformed e => .readError e
    | .parsed data =>
      match read_local_verses data with
      | .ok vs => .ok vs
      | .error e => .readError e
  match w.file book (pyFormat02 ch ++ ".json") with
  | some fc => parse fc
  | none =>
    match w.file book (toString ch ++ ".json") with
    | some fc => parse fc
    | none => .notFound

/-- Python `s[:200]`. -/
def strTake (s : String) (n : Nat) : String :=
  String.mk (s.data.take n)

/-- One iteration of the chapter loop in `main`: bump `totals`, then fold
the chapter into exactly one of the four outcome buckets; a mismatch
appends a record whose snippets are truncated to 200 characters. -/
def process_chapter (w : World) (book : String) (acc : Summary) (ch : Int) : Summary :=
  let acc := { acc with totals := acc.totals + 1 }
  match read_local_chapter w book ch with
  | .notFound => { acc with missing := acc.missing + 1 }
  | .readError _ => { acc with errors := acc.errors + 1 }
  | .ok localVerses =>
    match (fetch_ref_chapter (w.responses book ch)).1 with
    | .error _ => { acc with errors := acc.errors + 1 }
    | .ok refVerses =>
      let d := first_diff localVerses refVerses
      if d.1 = -1 then { acc with matched := acc.matched + 1 }
      else
        { acc with mismatches := acc.mismatches ++ [{
            book := book
            chapter := ch
            first_diff_verse := d.1
            local_snippet := strTake d.2.1 200
            ref_snippet := strTake d.2.2 200
            local_verse_count := localVerses.length
            ref_verse_count := refVerses.length }] }

/-- One iteration of the book loop in `main`: an empty chapter list only
prints a warning and moves on. -/
def process_book (w : World) (acc : Summary) (book : String) : Summary :=
  let chapters := discover_chapters (w.listing book)
  if chapters = [] then acc
  else chapters.foldl (process_chapter w book) acc

/-- The accumulators at the top of `main`. -/
def init_summary : Summary :=
  { totals := 0, matched := 0, missing := 0, errors := 0, mismatches := [] }

/-- The two nested loops of `main`. -/
def run_scan (w : World) (books : List String) : Summary :=
  books.foldl (process_book w) init_summary

/-- The rows written by `csv.DictWriter`: the fixed header from
`fieldnames`, then one row per record in that column order, numeric cells
rendered by `str`. -/
def csv_rows (ms : List MismatchRecord) : List (List String) :=
  ["book", "chapter", "first_diff_verse",
   "local_verse_count", "ref_verse_count",
   "local_snippet", "ref_snippet"]
  :: ms.map (fun m =>
      [m.book, toString m.chapter, toString m.first_diff_verse,
       toString m.local_verse_count, toString m.ref_verse_count,
       m.local_snippet, m.ref_snippet])

/-- What a run produces: either the early `return` when no canonical book
directory is present (no chapter processed, no report), or the final
summary together with the report contents, `none` when no file is written. -/
inductive RunResult where
  | noBooks
  | done (s : Summary) (report : Option (List (List String)))
deriving DecidableEq

/-- `main` from the script, as a function of the world. -/
def main_run (w : World) : RunResult :=
  let books := discover_books w.dirs
  if books = [] then .noBooks
  else
    let s := run_scan w books
    .done s (if s.mismatches = [] then none else some (csv_rows s.mismatches))

/-- The five ways one chapter iteration can end, in the order the script
checks them. -/
inductive ChapterOutcome where
  | missingFile
  | readErr
  | fetchErr
  | matchedChap
  | mismatchedChap
deriving DecidableEq

/-- Classifier of one chapter iteration of `main`, mirroring
`process_chapter` without the accumulator. -/
def chapter_outcome (w : World) (book : String) (ch : Int) : ChapterOutcome :=
  match read_local_chapter w book ch with
  | .notFound => .missingFile
  | .readError _ => .readErr
  | .ok localVerses =>
    match (fetch_ref_chapter (w.responses book ch)).1 with
    | .error _ => .fetchErr
    | .ok refVerses =>
      if (first_diff localVerses refVerses).1 = -1 then .matchedChap
      else .mismatchedChap

/-- The outcome classification of every chapter iteration of a run, in
processing order. -/
def all_outcomes (w : World) (books : List String) : List ChapterOutcome :=
  books.flatMap (fun b => (discover_chapters (w.listing b)).map (chapter_outcome w b))

/-- Decomposition of a character list into its maximal whitespace-free
runs, in order (proof-side normal form for `subWS`/`stripChars`). -/
def words (w : List Char) : List (List Char) :=
  match h : w.dropWhile pyIsSpace with
  | [] => []
  | c :: cs =>
    (c :: cs.takeWhile (fun x => !pyIsSpace x)) ::
      words (cs.dropWhile (fun x => !pyIsSpace x))
termination_by w.length
decreasing_by
  have h1 := length_dropWhile_le pyIsSpace w
  rw [h] at h1
  have h2 := length_dropWhile_le (fun x => !pyIsSpace x) cs
  simp only [List.length_cons] at h1
  omega

/-- Interleave single spaces between runs (proof-side normal form). -/
def joinWords : List (List Char) → List Char
  | [] => []
  | [r] => r
  | r :: s :: rs => r ++ ' ' :: joinWords (s :: rs)

/-- Proof-side right-hand strip: remove trailing whitespace. -/
def rstrip (l : List Char) : List Char :=
  (l.reverse.dropWhile pyIsSpace).reverse

theorem dropWhile_all_true {α : Type} (p : α → Bool) (as : List α)
    (h : ∀ a ∈ as, p a = true) : as.dropWhile p = [] :=
  List.dropWhile_eq_nil_iff.mpr h

theorem dropWhile_all_false {α : Type} (p : α → Bool) :
    ∀ as : List α, (∀ a ∈ as, p a = false) → as.dropWhile p = as := by
  intro as h
  induction as with
  | nil => rfl
  | cons a as ih =>
    rw [List.dropWhile_cons, if_neg (by simp [h a (by simp)])]

theorem dropWhile_append_all {α : Type} (p : α → Bool) :
    ∀ (as bs : List α), (∀ a ∈ as, p a = true) →
      (as ++ bs).dropWhile p = bs.dropWhile p := by
  intro as bs h
  induction as with
  | nil => rfl
  | cons a as ih =>
    rw [List.cons_append, List.dropWhile_cons, if_pos (h a (by simp))]
    exact ih (fun x hx => h x (by simp [hx]))

theorem takeWhile_append_all {α : Type} (p : α → Bool) :
    ∀ (as bs : List α), (∀ a ∈ as, p a = true) →
      (as ++ bs).takeWhile p = as ++ bs.takeWhile p := by
  intro as bs h
  induction as with
  | nil => rfl
  | cons a as ih =>
    rw [List.cons_append, List.takeWhile_cons, if_pos (h a (by simp))]
    rw [ih (fun x hx => h x (by simp [hx])), List.cons_append]

theorem takeWhile_cons_false {α : Type} (p : α → Bool) (a : α) (as : List α)
    (h : p a = false) : (a :: as).takeWhile p = [] := by
  rw [List.takeWhile_cons, if_neg (by simp [h])]

theorem dropWhile_cons_false {α : Type} (p : α → Bool) (a : α) (as : List α)
    (h : p a = false) : (a :: as).dropWhile p = a :: as := by
  rw [List.dropWhile_cons, if_neg (by simp [h])]

theorem dropWhile_head_false {α : Type} (p : α → Bool) :
    ∀ (l : List α) (c : α) (cs : List α), l.dropWhile p = c :: cs → p c = false := by
  intro l
  induction l with
  | nil => intro c cs h; cases h
  | cons a as ih =>
    intro c cs h
    rw [List.dropWhile_cons] at h
    by_cases ha : p a
    · rw [if_pos ha] at h; exact ih c cs h
    · rw [if_neg ha] at h
      cases h
      exact Bool.not_eq_true _ |>.mp ha

theorem stripChars_cons_space (x : List Char) : stripChars (' ' :: x) = stripChars x := by
  unfold stripChars
  rw [List.dropWhile_cons, if_pos (by decide)]

theorem stripChars_all_nonspace (x : List Char) (h : ∀ c ∈ x, pyIsSpace c = false) :
    stripChars x = x := by
  unfold stripChars
  rw [dropWhile_all_false _ _ h,
    dropWhile_all_false _ _ (fun c hc => h c (List.mem_reverse.mp hc)),
    List.reverse_reverse]

theorem rstrip_snoc (l : List Char) (c : Char) :
    rstrip (l ++ [c]) = if pyIsSpace c then rstrip l else l ++ [c] := by
  unfold rstrip
  rw [List.reverse_append]
  show ((c :: l.reverse).dropWhile pyIsSpace).reverse = _
  rw [List.dropWhile_cons]
  by_cases hc : pyIsSpace c
  · rw [if_pos hc, if_pos hc]
  · rw [if_neg hc, if_neg hc, List.reverse_cons, List.reverse_reverse]

theorem rstrip_all_nonspace (l : List Char) (h : ∀ c ∈ l, pyIsSpace c = false) :
    rstrip l = l := by
  unfold rstrip
  rw [dropWhile_all_false _ _ (fun c hc => h c (List.mem_reverse.mp hc)),
    List.reverse_reverse]

theorem rstrip_append_run (r : List Char) (e : Char) (he : pyIsSpace e = false) :
    ∀ x : List Char, rstrip (r ++ ' ' :: e :: x) = r ++ ' ' :: rstrip (e :: x) := by
  intro x
  induction x using List.reverseRecOn with
  | nil =>
    have h1 : r ++ ' ' :: e :: ([] : List Char) = (r ++ [' ']) ++ [e] := by simp
    rw [h1, rstrip_snoc, if_neg (by simp [he])]
    have h2 : rstrip (e :: ([] : List Char)) = [e] := by
      rw [show (e :: ([] : List Char)) = [] ++ [e] from rfl, rstrip_snoc,
        if_neg (by simp [he])]
    rw [h2]
    simp
  | append_singleton x' c ih =>
    have h1 : r ++ ' ' :: e :: (x' ++ [c]) = (r ++ ' ' :: e :: x') ++ [c] := by simp
    have h2 : e :: (x' ++ [c]) = (e :: x') ++ [c] := by simp
    rw [h1, h2, rstrip_snoc, rstrip_snoc]
    by_cases hc : pyIsSpace c
    · rw [if_pos hc, if_pos hc, ih]
    · rw [if_neg hc, if_neg hc]
      simp

theorem stripChars_eq_rstrip_dropWhile (l : List Char) :
    stripChars l = rstrip (l.dropWhile pyIsSpace) := rfl

theorem stripChars_trailing_space (r : List Char)
    (hr : ∀ c ∈ r, pyIsSpace c = false) : stripChars (r ++ [' ']) = r := by
  cases r with
  | nil => rfl
  | cons a r' =>
    rw [stripChars_eq_rstrip_dropWhile, List.cons_append,
      dropWhile_cons_false _ _ _ (hr a (by simp)), ← List.cons_append,
      rstrip_snoc, if_pos (by decide)]
    exact rstrip_all_nonspace _ hr

theorem stripChars_split (r : List Char) (e : Char) (x : List Char)
    (hr : ∀ c ∈ r, pyIsSpace c = false) (hr0 : r ≠ [])
    (he : pyIsSpace e = false) :
    stripChars (r ++ ' ' :: e :: x) = r ++ ' ' :: stripChars (e :: x) := by
  cases r with
  | nil => exact absurd rfl hr0
  | cons a r' =>
    rw [stripChars_eq_rstrip_dropWhile, List.cons_append,
      dropWhile_cons_false _ _ _ (hr a (by simp)), ← List.cons_append,
      rstrip_append_run _ _ he, stripChars_eq_rstrip_dropWhile,
      dropWhile_cons_false _ _ _ he]

theorem subWSAux_cons_nonspace (b : Bool) (c : Char) (cs : List Char)
    (h : pyIsSpace c = false) : subWSAux b (c :: cs) = c :: subWSAux false cs := by
  conv_lhs => unfold subWSAux
  rw [if_neg (by simp [h])]

theorem subWSAux_cons_space_true (c : Char) (cs : List Char)
    (h : pyIsSpace c = true) : subWSAux true (c :: cs) = subWSAux true cs := by
  conv_lhs => unfold subWSAux
  rw [if_pos h, if_pos rfl]

theorem subWSAux_cons_space_false (c : Char) (cs : List Char)
    (h : pyIsSpace c = true) : subWSAux false (c :: cs) = ' ' :: subWSAux true cs := by
  conv_lhs => unfold subWSAux
  rw [if_pos h, if_neg (by simp)]

theorem subWSAux_nonspace_append (r : List Char) :
    ∀ rest : List Char, (∀ c ∈ r, pyIsSpace c = false) →
      subWSAux false (r ++ rest) = r ++ subWSAux false rest := by
  induction r with
  | nil => intro rest _; rfl
  | cons a r' ih =>
    intro rest hr
    rw [List.cons_append, subWSAux_cons_nonspace false a _ (hr a (by simp)),
      ih rest (fun c hc => hr c (by simp [hc])), List.cons_append]

theorem subWSAux_true_spaces (sp : List Char) :
    ∀ rest : List Char, (∀ c ∈ sp, pyIsSpace c = true) →
      subWSAux true (sp ++ rest) = subWSAux true rest := by
  induction sp with
  | nil => intro rest _; rfl
  | cons a sp' ih =>
    intro rest hsp
    rw [List.cons_append, subWSAux_cons_space_true a _ (hsp a (by simp)),
      ih rest (fun c hc => hsp c (by simp [hc]))]

theorem subWSAux_true_eq_false (v : List Char)
    (h : ∀ c cs, v = c :: cs → pyIsSpace c = false) :
    subWSAux true v = subWSAux false v := by
  cases v with
  | nil => rfl
  | cons c cs =>
    rw [subWSAux_cons_nonspace true c cs (h c cs rfl),
      subWSAux_cons_nonspace false c cs (h c cs rfl)]

theorem subWSAux_false_spaces (sp : List Char) (hsp0 : sp ≠ [])
    (hsp : ∀ c ∈ sp, pyIsSpace c = true) (rest : List Char) :
    subWSAux false (sp ++ rest) = ' ' :: subWSAux true rest := by
  cases sp with
  | nil => exact absurd rfl hsp0
  | cons a sp' =>
    rw [List.cons_append, subWSAux_cons_space_false a _ (hsp a (by simp)),
      subWSAux_true_spaces sp' rest (fun c hc => hsp c (by simp [hc]))]

theorem words_eq_nil (w : List Char) (h : w.dropWhile pyIsSpace = []) :
    words w = [] := by
  conv_lhs => unfold words
  split
  · rfl
  · rename_i c cs h2
    rw [h] at h2
    cases h2

theorem words_eq_cons (w : List Char) (c : Char) (cs : List Char)
    (h : w.dropWhile pyIsSpace = c :: cs) :
    words w = (c :: cs.takeWhile (fun x => !pyIsSpace x)) ::
      words (cs.dropWhile (fun x => !pyIsSpace x)) := by
  conv_lhs => unfold words
  split
  · rename_i h2
    rw [h] at h2
    cases h2
  · rename_i c' cs' h2
    rw [h] at h2
    cases h2
    rfl

theorem words_spaces_append (sp v : List Char) (hsp : ∀ c ∈ sp, pyIsSpace c = true) :
    words (sp ++ v) = words v := by
  have hdw : (sp ++ v).dropWhile pyIsSpace = v.dropWhile pyIsSpace :=
    dropWhile_append_all _ sp v hsp
  rcases hv : v.dropWhile pyIsSpace with _ | ⟨c, cs⟩
  · rw [words_eq_nil _ (hdw.trans hv), words_eq_nil _ hv]
  · rw [words_eq_cons _ c cs (hdw.trans hv), words_eq_cons _ c cs hv]

theorem strip_subWS_words : ∀ (n : Nat) (w : List Char), w.length ≤ n →
    stripChars (subWS w) = joinWords (words w) := by
  intro n
  induction n with
  | zero =>
    intro w hw
    have hnil : w = [] := List.length_eq_zero.mp (Nat.le_zero.mp hw)
    subst hnil
    rw [words_eq_nil ([] : List Char) rfl]
    rfl
  | succ n ih =>
    intro w hw
    rcases hd : w.dropWhile pyIsSpace with _ | ⟨c, cs⟩
    · have hall : ∀ x ∈ w, pyIsSpace x = true := List.dropWhile_eq_nil_iff.mp hd
      rw [words_eq_nil w hd]
      cases w with
      | nil => rfl
      | cons a w' =>
        have h1 : subWSAux false ((a :: w') ++ []) = ' ' :: subWSAux true [] :=
          subWSAux_false_spaces (a :: w') (by simp) hall []
        rw [List.append_nil] at h1
        show stripChars (subWSAux false (a :: w')) = joinWords []
        rw [h1]
        rfl
    · have hc : pyIsSpace c = false := dropWhile_head_false _ w c cs hd
      have hw_words := words_eq_cons w c cs hd
      have hcr : c :: cs = (c :: cs.takeWhile (fun x => !pyIsSpace x))
          ++ cs.dropWhile (fun x => !pyIsSpace x) := by
        rw [List.cons_append, List.takeWhile_append_dropWhile]
      have hr_nonspace : ∀ x ∈ c :: cs.takeWhile (fun x => !pyIsSpace x),
          pyIsSpace x = false := by
        intro x hx
        rcases List.mem_cons.mp hx with h1 | h1
        · subst h1; exact hc
        · simpa using List.mem_takeWhile_imp h1
      have hrest_head : ∀ d ds,
          cs.dropWhile (fun x => !pyIsSpace x) = d :: ds → pyIsSpace d = true := by
        intro d ds h1
        simpa using dropWhile_head_false (fun x => !pyIsSpace x) cs d ds h1
      have hw_decomp : w = w.takeWhile pyIsSpace
          ++ ((c :: cs.takeWhile (fun x => !pyIsSpace x))
              ++ cs.dropWhile (fun x => !pyIsSpace x)) := by
        rw [← hcr, ← hd, List.takeWhile_append_dropWhile]
      have hlen_cs : cs.length + 1 ≤ w.length := by
        have h1 := length_dropWhile_le pyIsSpace w
        rw [hd] at h1
        simpa using h1
      have hstrip : stripChars (subWS w)
          = stripChars (subWSAux false
              ((c :: cs.takeWhile (fun x => !pyIsSpace x))
                ++ cs.dropWhile (fun x => !pyIsSpace x))) := by
        show stripChars (subWSAux false w) = _
        rcases htw : w.takeWhile pyIsSpace with _ | ⟨a, sp'⟩
        · conv_lhs => rw [hw_decomp, htw, List.nil_append]
        · conv_lhs => rw [hw_decomp, htw]
          rw [subWSAux_false_spaces (a :: sp') (by simp)
              (fun x hx => List.mem_takeWhile_imp (show x ∈ w.takeWhile pyIsSpace by
                rw [htw]; exact hx)) _,
            subWSAux_true_eq_false _ (by
              intro c' cs' h1
              rw [List.cons_append] at h1
              cases h1
              exact hc),
            stripChars_cons_space]
      rw [hstrip, hw_words]
      rcases hrest : cs.dropWhile (fun x => !pyIsSpace x) with _ | ⟨d, ds⟩
      · rw [subWSAux_nonspace_append _ [] hr_nonspace,
          show subWSAux false [] = ([] : List Char) from rfl, List.append_nil,
          stripChars_all_nonspace _ hr_nonspace, words_eq_nil ([] : List Char) rfl]
        rfl
      · have hd2 : pyIsSpace d = true := hrest_head d ds hrest
        rcases hd3 : (d :: ds).dropWhile pyIsSpace with _ | ⟨e, rest₂⟩
        · have hall2 : ∀ x ∈ d :: ds, pyIsSpace x = true := List.dropWhile_eq_nil_iff.mp hd3
          rw [subWSAux_nonspace_append _ (d :: ds) hr_nonspace]
          have h4 : subWSAux false ((d :: ds) ++ []) = ' ' :: subWSAux true [] :=
            subWSAux_false_spaces (d :: ds) (by simp) hall2 []
          rw [List.append_nil] at h4
          rw [h4, show (' ' :: subWSAux true []) = [' '] from rfl,
            stripChars_trailing_space _ hr_nonspace, words_eq_nil (d :: ds) hd3]
          rfl
        · have he : pyIsSpace e = false := dropWhile_head_false _ (d :: ds) e rest₂ hd3
          have hdecomp2 : d :: ds = (d :: ds).takeWhile pyIsSpace ++ e :: rest₂ := by
            rw [← hd3, List.takeWhile_append_dropWhile]
          have htw2 : ∀ x ∈ (d :: ds).takeWhile pyIsSpace, pyIsSpace x = true :=
            fun x hx => List.mem_takeWhile_imp hx
          have htw2_ne : (d :: ds).takeWhile pyIsSpace ≠ [] := by
            rw [List.takeWhile_cons, if_pos hd2]
            simp
          have h5 : subWSAux false (d :: ds) = ' ' :: e :: subWSAux false rest₂ := by
            conv_lhs => rw [hdecomp2]
            rw [subWSAux_false_spaces _ htw2_ne htw2 _,
              subWSAux_true_eq_false _ (by
                intro c' cs' h1
                cases h1
                exact he),
              subWSAux_cons_nonspace false e rest₂ he]
          rw [subWSAux_nonspace_append _ (d :: ds) hr_nonspace, h5,
            stripChars_split _ e _ hr_nonspace (by simp) he]
          have h6 : (e :: subWSAux false rest₂) = subWS (e :: rest₂) := by
            show _ = subWSAux false (e :: rest₂)
            rw [subWSAux_cons_nonspace false e rest₂ he]
          rw [h6]
          have hlen2 : (e :: rest₂).length ≤ n := by
            have h7 := length_dropWhile_le pyIsSpace (d :: ds)
            rw [hd3] at h7
            have h8 : (d :: ds).length ≤ cs.length := by
              rw [← hrest]
              exact length_dropWhile_le _ cs
            simp only [List.length_cons] at h7 h8 ⊢
            omega
          rw [ih (e :: rest₂) hlen2]
          have h9 : words (d :: ds) = words (e :: rest₂) := by
            conv_lhs => rw [hdecomp2]
            exact words_spaces_append _ _ htw2
          rw [h9]
          have h10 : (e :: rest₂).dropWhile pyIsSpace = e :: rest₂ :=
            dropWhile_cons_false _ _ _ he
          rw [words_eq_cons (e :: rest₂) e rest₂ h10]
          rfl

theorem words_wf : ∀ (n : Nat) (w : List Char), w.length ≤ n →
    ∀ r ∈ words w, r ≠ [] ∧ ∀ c ∈ r, pyIsSpace c = false := by
  intro n
  induction n with
  | zero =>
    intro w hw r hr
    have hnil : w = [] := List.length_eq_zero.mp (Nat.le_zero.mp hw)
    subst hnil
    rw [words_eq_nil ([] : List Char) rfl] at hr
    cases hr
  | succ n ih =>
    intro w hw r hr
    rcases hd : w.dropWhile pyIsSpace with _ | ⟨c, cs⟩
    · rw [words_eq_nil w hd] at hr
      cases hr
    · rw [words_eq_cons w c cs hd] at hr
      have hc : pyIsSpace c = false := dropWhile_head_false _ w c cs hd
      rcases List.mem_cons.mp hr with h1 | h1
      · subst h1
        refine ⟨by simp, ?_⟩
        intro x hx
        rcases List.mem_cons.mp hx with h2 | h2
        · subst h2; exact hc
        · simpa using List.mem_takeWhile_imp h2
      · have hlen : (cs.dropWhile (fun x => !pyIsSpace x)).length ≤ n := by
          have h2 := length_dropWhile_le pyIsSpace w
          rw [hd] at h2
          have h3 := length_dropWhile_le (fun x => !pyIsSpace x) cs
          simp only [List.length_cons] at h2
          omega
        exact ih _ hlen r h1

theorem words_run_append (r rest : List Char) (hr0 : r ≠ [])
    (hr : ∀ c ∈ r, pyIsSpace c = false)
    (hrest : ∀ d ds, rest = d :: ds → pyIsSpace d = true) :
    words (r ++ rest) = r :: words rest := by
  cases r with
  | nil => exact absurd rfl hr0
  | cons a r' =>
    have ha : pyIsSpace a = false := hr a (by simp)
    have hdw : ((a :: r') ++ rest).dropWhile pyIsSpace = a :: (r' ++ rest) := by
      rw [List.cons_append]
      exact dropWhile_cons_false _ _ _ ha
    rw [words_eq_cons _ a (r' ++ rest) hdw]
    have htk : (r' ++ rest).takeWhile (fun x => !pyIsSpace x) = r' := by
      rw [takeWhile_append_all _ r' rest (fun c hc => by simp [hr c (by simp [hc])])]
      rcases rest with _ | ⟨d, ds⟩
      · simp
      · rw [takeWhile_cons_false _ d ds (by simp [hrest d ds rfl])]
        exact List.append_nil r'
    have hdr : (r' ++ rest).dropWhile (fun x => !pyIsSpace x) = rest := by
      rw [dropWhile_append_all _ r' rest (fun c hc => by simp [hr c (by simp [hc])])]
      rcases rest with _ | ⟨d, ds⟩
      · rfl
      · exact dropWhile_cons_false _ d ds (by simp [hrest d ds rfl])
    rw [htk, hdr]

theorem words_joinWords : ∀ rs : List (List Char),
    (∀ r ∈ rs, r ≠ [] ∧ ∀ c ∈ r, pyIsSpace c = false) →
    words (joinWords rs) = rs := by
  intro rs
  induction rs with
  | nil => intro _; exact words_eq_nil [] rfl
  | cons r rs' ih =>
    intro h
    rcases rs' with _ | ⟨s, rs''⟩
    · show words r = [r]
      have hr := h r (by simp)
      have h2 : words (r ++ []) = r :: words [] :=
        words_run_append r [] hr.1 hr.2 (by intro d ds h3; cases h3)
      rw [List.append_nil] at h2
      rw [h2, words_eq_nil ([] : List Char) rfl]
    · show words (r ++ ' ' :: joinWords (s :: rs'')) = r :: s :: rs''
      have hr := h r (by simp)
      rw [words_run_append r (' ' :: joinWords (s :: rs'')) hr.1 hr.2
          (by intro d ds h3; cases h3; decide)]
      have hsp := words_spaces_append [' '] (joinWords (s :: rs''))
        (by intro x hx; simp at hx; subst hx; decide)
      rw [List.singleton_append] at hsp
      rw [hsp, ih (fun x hx => h x (by simp [hx]))]

theorem words_punctSub : ∀ (n : Nat) (u : List Char), u.length ≤ n →
    words (punctSub u)
      = ((words u).map (fun r => r.filter pyIsWord)).filter (fun r => !r.isEmpty) := by
  intro n
  induction n with
  | zero =>
    intro u hu
    have hnil : u = [] := List.length_eq_zero.mp (Nat.le_zero.mp hu)
    subst hnil
    rw [show punctSub [] = ([] : List Char) from rfl, words_eq_nil ([] : List Char) rfl]
    rfl
  | succ n ih =>
    intro u hu
    rcases hd : u.dropWhile pyIsSpace with _ | ⟨c, cs⟩
    · have hall : ∀ x ∈ u, pyIsSpace x = true := List.dropWhile_eq_nil_iff.mp hd
      have hp : punctSub u = u := by
        apply List.filter_eq_self.mpr
        intro a ha
        simp [hall a ha]
      rw [hp, words_eq_nil u hd]
      rfl
    · have hc : pyIsSpace c = false := dropWhile_head_false _ u c cs hd
      have hw_words := words_eq_cons u c cs hd
      have hcr : c :: cs = (c :: cs.takeWhile (fun x => !pyIsSpace x))
          ++ cs.dropWhile (fun x => !pyIsSpace x) := by
        rw [List.cons_append, List.takeWhile_append_dropWhile]
      have hu_decomp : u = u.takeWhile pyIsSpace
          ++ ((c :: cs.takeWhile (fun x => !pyIsSpace x))
              ++ cs.dropWhile (fun x => !pyIsSpace x)) := by
        rw [← hcr, ← hd, List.takeWhile_append_dropWhile]
      have hr_nonspace : ∀ x ∈ c :: cs.takeWhile (fun x => !pyIsSpace x),
          pyIsSpace x = false := by
        intro x hx
        rcases List.mem_cons.mp hx with h1 | h1
        · subst h1; exact hc
        · simpa using List.mem_takeWhile_imp h1
      have hrest_head : ∀ d ds,
          cs.dropWhile (fun x => !pyIsSpace x) = d :: ds → pyIsSpace d = true := by
        intro d ds h1
        simpa using dropWhile_head_false (fun x => !pyIsSpace x) cs d ds h1
      have hlen : (cs.dropWhile (fun x => !pyIsSpace x)).length ≤ n := by
        have h1 := length_dropWhile_le pyIsSpace u
        rw [hd] at h1
        have h2 := length_dropWhile_le (fun x => !pyIsSpace x) cs
        simp only [List.length_cons] at h1
        omega
      have hps : punctSub u = u.takeWhile pyIsSpace
          ++ (((c :: cs.takeWhile (fun x => !pyIsSpace x)).filter pyIsWord)
              ++ punctSub (cs.dropWhile (fun x => !pyIsSpace x))) := by
        conv_lhs => rw [hu_decomp]
        unfold punctSub
        rw [List.filter_append, List.filter_append]
        congr 1
        · apply List.filter_eq_self.mpr
          intro a ha
          simp [List.mem_takeWhile_imp ha]
        · congr 1
          apply List.filter_congr
          intro a ha
          simp [hr_nonspace a ha]
      have htw_sp : ∀ x ∈ u.takeWhile pyIsSpace, pyIsSpace x = true :=
        fun x hx => List.mem_takeWhile_imp hx
      rw [hps, words_spaces_append _ _ htw_sp, hw_words]
      rcases hfr : (c :: cs.takeWhile (fun x => !pyIsSpace x)).filter pyIsWord
        with _ | ⟨q0, qs⟩
      · rw [List.nil_append, ih _ hlen]
        simp only [List.map_cons, hfr, List.filter_cons]
        simp
      · have hq_sub : ∀ x ∈ q0 :: qs, pyIsSpace x = false := by
          intro x hx
          rw [← hfr] at hx
          exact hr_nonspace x (List.mem_filter.mp hx).1
        have hpr_head : ∀ d ds,
            punctSub (cs.dropWhile (fun x => !pyIsSpace x)) = d :: ds →
              pyIsSpace d = true := by
          intro d ds h1
          rcases h2 : cs.dropWhile (fun x => !pyIsSpace x) with _ | ⟨d', ds'⟩
          · rw [h2] at h1; cases h1
          · have hd' : pyIsSpace d' = true := hrest_head d' ds' h2
            rw [h2] at h1
            unfold punctSub at h1
            rw [List.filter_cons_of_pos (by simp [hd'])] at h1
            cases h1
            exact hd'
        rw [words_run_append (q0 :: qs) _ (by simp) hq_sub hpr_head, ih _ hlen]
        simp only [List.map_cons, hfr, List.filter_cons]
        simp

theorem fixQuote_keep (a : Char) :
    (pyIsWord (fixQuote a) || pyIsSpace (fixQuote a)) = (pyIsWord a || pyIsSpace a) := by
  by_cases h1 : a = '“'
  · subst h1; decide
  · by_cases h2 : a = '”'
    · subst h2; decide
    · by_cases h3 : a = '’'
      · subst h3; decide
      · by_cases h4 : a = '‘'
        · subst h4; decide
        · rw [show fixQuote a = a by
            unfold fixQuote
            rw [if_neg h1, if_neg h2, if_neg h3, if_neg h4]]

theorem fixQuote_eq_of_keep (a : Char) (h : (pyIsWord a || pyIsSpace a) = true) :
    fixQuote a = a := by
  have h1 : a ≠ '“' := by rintro rfl; revert h; decide
  have h2 : a ≠ '”' := by rintro rfl; revert h; decide
  have h3 : a ≠ '’' := by rintro rfl; revert h; decide
  have h4 : a ≠ '‘' := by rintro rfl; revert h; decide
  unfold fixQuote
  rw [if_neg h1, if_neg h2, if_neg h3, if_neg h4]

theorem punctSub_fixQuote : ∀ l : List Char, punctSub (l.map fixQuote) = punctSub l := by
  intro l
  induction l with
  | nil => rfl
  | cons a l ih =>
    show punctSub (fixQuote a :: l.map fixQuote) = punctSub (a :: l)
    unfold punctSub at ih ⊢
    rw [List.filter_cons, List.filter_cons, fixQuote_keep a]
    by_cases h : (pyIsWord a || pyIsSpace a) = true
    · rw [if_pos h, if_pos h, fixQuote_eq_of_keep a h, ih]
    · rw [if_neg h, if_neg h, ih]

theorem strip_idem_punct (u : List Char) :
    stripChars (subWS (punctSub (stripChars (subWS u))))
      = stripChars (subWS (punctSub u)) := by
  have hA : stripChars (subWS u) = joinWords (words u) :=
    strip_subWS_words u.length u le_rfl
  have hwf : ∀ r ∈ words u, r ≠ [] ∧ ∀ c ∈ r, pyIsSpace c = false :=
    words_wf u.length u le_rfl
  have hC : words (joinWords (words u)) = words u := words_joinWords (words u) hwf
  calc stripChars (subWS (punctSub (stripChars (subWS u))))
      = joinWords (words (punctSub (stripChars (subWS u)))) :=
        strip_subWS_words _ _ le_rfl
    _ = joinWords (((words (stripChars (subWS u))).map (fun r => r.filter pyIsWord)).filter
          (fun r => !r.isEmpty)) := by rw [words_punctSub _ _ le_rfl]
    _ = joinWords (((words u).map (fun r => r.filter pyIsWord)).filter
          (fun r => !r.isEmpty)) := by rw [hA, hC]
    _ = joinWords (words (punctSub u)) := by rw [words_punctSub _ _ le_rfl]
    _ = stripChars (subWS (punctSub u)) := (strip_subWS_words _ _ le_rfl).symm

theorem norm_text_strict_canon (s : String) :
    norm_text_strict s
      = String.mk ((stripChars (subWS (punctSub s.data))).map Char.toLower) := by
  unfold norm_text_strict
  congr 1
  congr 1
  have h1 : (norm_text s).data = stripChars (subWS (s.data.map fixQuote)) := rfl
  rw [h1, strip_idem_punct, punctSub_fixQuote]

theorem first_diff_aux_cons_ne (L R : Nat) (i : Nat) (l r : String)
    (ls rs : List String) (h : norm_text_strict l ≠ norm_text_strict r) :
    first_diff_aux L R i (l :: ls) (r :: rs) = (((i + 1 : Nat) : Int), l, r) := by
  conv_lhs => unfold first_diff_aux
  rw [if_pos h]

theorem first_diff_aux_cons_eq (L R : Nat) (i : Nat) (l r : String)
    (ls rs : List String) (h : norm_text_strict l = norm_text_strict r) :
    first_diff_aux L R i (l :: ls) (r :: rs) = first_diff_aux L R (i + 1) ls rs := by
  conv_lhs => unfold first_diff_aux
  rw [if_neg (fun hne => hne h)]

theorem first_diff_aux_nil_left (L R : Nat) (i : Nat) (rs : List String) :
    first_diff_aux L R i [] rs
      = if L ≠ R then (((i + 1 : Nat) : Int),
          "[local length=" ++ toString L ++ "]", "[ref length=" ++ toString R ++ "]")
        else (-1, "", "") := by
  conv_lhs => unfold first_diff_aux

theorem first_diff_aux_cons_nil (L R : Nat) (i : Nat) (l : String) (ls : List String) :
    first_diff_aux L R i (l :: ls) []
      = if L ≠ R then (((i + 1 : Nat) : Int),
          "[local length=" ++ toString L ++ "]", "[ref length=" ++ toString R ++ "]")
        else (-1, "", "") := by
  conv_lhs => unfold first_diff_aux

theorem first_diff_aux_at (L R : Nat) :
    ∀ (k i : Nat) (ls rs : List String) (hk1 : k < ls.length) (hk2 : k < rs.length),
      (∀ j, j < k → ∀ (hj1 : j < ls.length) (hj2 : j < rs.length),
        norm_text_strict (ls.get ⟨j, hj1⟩) = norm_text_strict (rs.get ⟨j, hj2⟩)) →
      norm_text_strict (ls.get ⟨k, hk1⟩) ≠ norm_text_strict (rs.get ⟨k, hk2⟩) →
      first_diff_aux L R i ls rs
        = (((i + k + 1 : Nat) : Int), ls.get ⟨k, hk1⟩, rs.get ⟨k, hk2⟩) := by
  intro k
  induction k with
  | zero =>
    intro i ls rs hk1 hk2 hpre hne
    rcases ls with _ | ⟨l, ls'⟩
    · simp at hk1
    rcases rs with _ | ⟨r, rs'⟩
    · simp at hk2
    rw [first_diff_aux_cons_ne L R i l r ls' rs' hne]
    simp
  | succ k ih =>
    intro i ls rs hk1 hk2 hpre hne
    rcases ls with _ | ⟨l, ls'⟩
    · simp at hk1
    rcases rs with _ | ⟨r, rs'⟩
    · simp at hk2
    have h0 : norm_text_strict l = norm_text_strict r := by
      simpa using hpre 0 (Nat.succ_pos k) (by simp) (by simp)
    rw [first_diff_aux_cons_eq L R i l r ls' rs' h0]
    have hb1 : k < ls'.length := by
      simp only [List.length_cons] at hk1
      omega
    have hb2 : k < rs'.length := by
      simp only [List.length_cons] at hk2
      omega
    have hpre' : ∀ j, j < k → ∀ (hj1 : j < ls'.length) (hj2 : j < rs'.length),
        norm_text_strict (ls'.get ⟨j, hj1⟩) = norm_text_strict (rs'.get ⟨j, hj2⟩) := by
      intro j hj hj1 hj2
      simpa using hpre (j + 1) (Nat.succ_lt_succ hj)
        (by simp only [List.length_cons]; omega)
        (by simp only [List.length_cons]; omega)
    have hne' : norm_text_strict (ls'.get ⟨k, hb1⟩) ≠ norm_text_strict (rs'.get ⟨k, hb2⟩) := by
      simpa using hne
    refine (ih (i + 1) ls' rs' hb1 hb2 hpre' hne').trans ?_
    have harith : (i + 1) + k + 1 = i + (k + 1) + 1 := by omega
    rw [harith]
    simp

theorem first_diff_aux_all_eq (L R : Nat) :
    ∀ (ls rs : List String) (i : Nat),
      (∀ (j : Nat) (hj1 : j < ls.length) (hj2 : j < rs.length),
        norm_text_strict (ls.get ⟨j, hj1⟩) = norm_text_strict (rs.get ⟨j, hj2⟩)) →
      first_diff_aux L R i ls rs
        = if L ≠ R then (((i + min ls.length rs.length + 1 : Nat) : Int),
            "[local length=" ++ toString L ++ "]", "[ref length=" ++ toString R ++ "]")
          else (-1, "", "") := by
  intro ls
  induction ls with
  | nil =>
    intro rs i hall
    rw [first_diff_aux_nil_left]
    simp
  | cons l ls' ih =>
    intro rs i hall
    rcases rs with _ | ⟨r, rs'⟩
    · rw [first_diff_aux_cons_nil]
      simp
    · have h0 : norm_text_strict l = norm_text_strict r := by
        simpa using hall 0 (by simp) (by simp)
      rw [first_diff_aux_cons_eq L R i l r ls' rs' h0]
      rw [ih rs' (i + 1) (fun j hj1 hj2 => by
        simpa using hall (j + 1)
          (by simp only [List.length_cons]; omega)
          (by simp only [List.length_cons]; omega))]
      by_cases hLR : L ≠ R
      · rw [if_pos hLR, if_pos hLR]
        have harith : (i + 1) + min ls'.length rs'.length + 1
            = i + min (l :: ls').length (r :: rs').length + 1 := by
          simp only [List.length_cons, Nat.succ_min_succ]
          omega
        rw [harith]
      · rw [if_neg hLR, if_neg hLR]

/-- C1: `first_diff` compares pairwise up to the shorter list's length using
Strict-normalized equality and returns the 1-based index of the first pair
whose Strict normalizations differ (content mismatch takes priority); if no
such index exists and the lengths differ it returns position
(common length + 1) with the "[local length=...]" / "[ref length=...]"
snippets; if the lengths are equal and every pair matches it returns the
`(-1, "", "")` Match sentinel. -/
theorem first_diff_correct (loc ref : List String) :
    (∀ (k : Nat) (hk1 : k < loc.length) (hk2 : k < ref.length),
      (∀ j, j < k → ∀ (hj1 : j < loc.length) (hj2 : j < ref.length),
        norm_text_strict (loc.get ⟨j, hj1⟩) = norm_text_strict (ref.get ⟨j, hj2⟩)) →
      norm_text_strict (loc.get ⟨k, hk1⟩) ≠ norm_text_strict (ref.get ⟨k, hk2⟩) →
      first_diff loc ref = (((k + 1 : Nat) : Int), loc.get ⟨k, hk1⟩, ref.get ⟨k, hk2⟩))
    ∧ ((∀ (j : Nat) (hj1 : j < loc.length) (hj2 : j < ref.length),
        norm_text_strict (loc.get ⟨j, hj1⟩) = norm_text_strict (ref.get ⟨j, hj2⟩)) →
      loc.length ≠ ref.length →
      first_diff loc ref = (((min loc.length ref.length + 1 : Nat) : Int),
        "[local length=" ++ toString loc.length ++ "]",
        "[ref length=" ++ toString ref.length ++ "]"))
    ∧ ((∀ (j : Nat) (hj1 : j < loc.length) (hj2 : j < ref.length),
        norm_text_strict (loc.get ⟨j, hj1⟩) = norm_text_strict (ref.get ⟨j, hj2⟩)) →
      loc.length = ref.length →
      first_diff loc ref = (-1, "", "")) := by
  refine ⟨?_, ?_, ?_⟩
  · intro k hk1 hk2 hpre hne
    unfold first_diff
    have := first_diff_aux_at loc.length ref.length k 0 loc ref hk1 hk2 hpre hne
    simpa using this
  · intro hall hne
    unfold first_diff
    rw [first_diff_aux_all_eq loc.length ref.length loc ref 0 hall, if_pos hne]
    simp
  · intro hall heq
    unfold first_diff
    rw [first_diff_aux_all_eq loc.length ref.length loc ref 0 hall,
      if_neg (fun hne => hne heq)]

/-- C1 witness: the three branches of `first_diff_correct` at concrete
inputs. -/
theorem first_diff_correct_witness :
    first_diff ["In", "x"] ["In", "y"] = (2, "x", "y")
    ∧ first_diff ["a", "b"] ["a"] = (2, "[local length=" ++ toString 2 ++ "]",
        "[ref length=" ++ toString 1 ++ "]")
    ∧ first_diff ["light."] ["light"] = (-1, "", "") := by
  refine ⟨?_, ?_, ?_⟩
  · have h := (first_diff_correct ["In", "x"] ["In", "y"]).1 1 (by decide) (by decide)
      (by
        intro j hj hj1 hj2
        have hj0 : j = 0 := by omega
        subst hj0
        show norm_text_strict "In" = norm_text_strict "In"
        rfl)
      (by decide)
    simpa using h
  · exact (first_diff_correct ["a", "b"] ["a"]).2.1
      (by
        intro j hj1 hj2
        have hj0 : j = 0 := by simp at hj2; omega
        subst hj0
        show norm_text_strict "a" = norm_text_strict "a"
        rfl)
      (by decide)
  · exact (first_diff_correct ["light."] ["light"]).2.2
      (by
        intro j hj1 hj2
        have hj0 : j = 0 := by simp at hj1; omega
        subst hj0
        show norm_text_strict "light." = norm_text_strict "light"
        decide)
      (by decide)

/-- C2 (amended): Strict normalization equals Loose normalization followed by
removal of every character that is neither a word character (letter, digit,
or underscore) nor whitespace, whitespace collapsing/trimming, and
lowercasing; equivalently it is that same canonicalization applied directly
to the raw text; consequently any two strings that agree after deleting all
their non-word, non-whitespace characters have equal Strict normalizations
(in particular all pairs differing only in punctuation other than the
underscore). -/
theorem strict_normalization_punct_insensitive (s t : String)
    (h : punctSub s.data = punctSub t.data) :
    norm_text_strict s = norm_text_strict t
    ∧ norm_text_strict s
        = String.mk ((stripChars (subWS (punctSub s.data))).map Char.toLower) := by
  refine ⟨?_, norm_text_strict_canon s⟩
  rw [norm_text_strict_canon s, norm_text_strict_canon t, h]

/-- C2 witness: the spec's own example pair, equal after punctuation
deletion, strict-normalizes equal. -/
theorem strict_normalization_punct_insensitive_witness :
    norm_text_strict "Let there be light." = norm_text_strict "Let there be light" :=
  (strict_normalization_punct_insensitive "Let there be light." "Let there be light"
    (by decide)).1

/-- C2 counterexample: `\w` keeps the underscore, so the code does not remove
"every character that is not a letter, digit, or whitespace": U+005F is none
of those (it is Unicode punctuation, class Pc), yet it survives
`norm_text_strict`, and the pair "a_b" / "ab", which differs in that
punctuation character only, strict-normalizes unequally. -/
theorem strict_keeps_underscore :
    norm_text_strict "a_b" = "a_b" ∧ norm_text_strict "ab" = "ab"
    ∧ norm_text_strict "a_b" ≠ norm_text_strict "ab" :=
  ⟨by decide, by decide, by decide⟩

/-- C5: `discover_books` returns exactly the present directory names that
match the fixed 66-entry canonical book list (case-sensitively), ordered as
a sublist of the canonical list, not by filesystem order: permuting the
directory listing does not change the result. -/
theorem discover_books_canonical (dirs : List String) :
    KJV_BOOKS_IN_ORDER.length = 66
    ∧ (∀ b, b ∈ discover_books dirs ↔ b ∈ KJV_BOOKS_IN_ORDER ∧ b ∈ dirs)
    ∧ (discover_books dirs).Sublist KJV_BOOKS_IN_ORDER
    ∧ ∀ dirs' : List String, dirs.Perm dirs' →
        discover_books dirs = discover_books dirs' := by
  refine ⟨by decide, ?_, List.filter_sublist _, ?_⟩
  · intro b
    unfold discover_books
    rw [List.mem_filter]
    constructor
    · rintro ⟨h1, h2⟩
      exact ⟨h1, by simpa using h2⟩
    · rintro ⟨h1, h2⟩
      exact ⟨h1, by simpa using h2⟩
  · intro dirs' hp
    unfold discover_books
    apply List.filter_congr
    intro b _
    by_cases hb : b ∈ dirs
    · have hb' : b ∈ dirs' := hp.mem_iff.mp hb
      simp [hb, hb']
    · have hb' : b ∉ dirs' := fun hc => hb (hp.mem_iff.mpr hc)
      simp [hb, hb']

/-- C5 witness: canonical-order output and order-independence on a concrete
listing. -/
theorem discover_books_canonical_witness :
    ("Genesis" ∈ discover_books ["notes", "Genesis"])
    ∧ discover_books ["notes", "Genesis"] = discover_books ["Genesis", "notes"] := by
  constructor
  · exact ((discover_books_canonical ["notes", "Genesis"]).2.1 "Genesis").mpr
      ⟨by decide, by decide⟩
  · exact (discover_books_canonical ["notes", "Genesis"]).2.2.2 ["Genesis", "notes"]
      (by decide)

/-- C6 (amended): `discover_chapters` returns the integer parses of the
".json" filename stems (non-numeric stems silently skipped) sorted
ascending, as a permutation of the parsed stems; a chapter number is
processed at most once only when no two distinct filenames parse to the
same integer — the parsed-stem multiset being duplicate-free makes the
chapter list duplicate-free. -/
theorem discover_chapters_sorted (names : List String) :
    (discover_chapters names).Sorted (· ≤ ·)
    ∧ (discover_chapters names).Perm (names.filterMap stem_int?)
    ∧ (∀ k : Int, k ∈ discover_chapters names ↔ ∃ name ∈ names, stem_int? name = some k)
    ∧ ((names.filterMap stem_int?).Nodup → (discover_chapters names).Nodup) := by
  have hperm : (discover_chapters names).Perm (names.filterMap stem_int?) :=
    List.perm_insertionSort _ _
  refine ⟨List.sorted_insertionSort _ _, hperm, ?_, ?_⟩
  · intro k
    rw [hperm.mem_iff, List.mem_filterMap]
  · intro h
    exact hperm.nodup_iff.mpr h

/-- C6 witness: a duplicate-free listing yields a duplicate-free ascending
chapter list containing the parsed stems. -/
theorem discover_chapters_sorted_witness :
    ((2 : Int) ∈ discover_chapters ["02.json", "10.json"])
    ∧ (discover_chapters ["02.json", "10.json"]).Nodup := by
  constructor
  · exact ((discover_chapters_sorted ["02.json", "10.json"]).2.2.1 2).mpr
      ⟨"02.json", by decide, by decide⟩
  · exact (discover_chapters_sorted ["02.json", "10.json"]).2.2.2 (by decide)

/-- C6 counterexample: the padded file "01.json" and the unpadded "1.json"
both parse to chapter 1, so the chapter loop iterates the ChapterRef
(book, 1) twice — the discovered chapter sequence has a duplicate. -/
theorem discover_chapters_duplicate :
    discover_chapters ["01.json", "1.json"] = [1, 1]
    ∧ ¬ (discover_chapters ["01.json", "1.json"]).Nodup :=
  ⟨by decide, by decide⟩

theorem fetch_aux_zero (o : Nat → Resp) (k : Nat) (le : Option String) :
    fetch_aux o 0 k le = (.error le, []) := rfl

theorem fetch_aux_neterr (o : Nat → Resp) (n m k : Nat) (le : Option String)
    (msg : String) (hn : n = m + 1) (h : o k = .netErr msg) :
    fetch_aux o n k le
      = ((fetch_aux o m (k + 1) (some msg)).1,
         RETRY_SLEEP_MS :: (fetch_aux o m (k + 1) (some msg)).2) := by
  subst hn
  conv_lhs => unfold fetch_aux
  rw [h]

theorem fetch_aux_429 (o : Nat → Resp) (n m k : Nat) (le : Option String)
    (b : Option Json) (hn : n = m + 1) (h : o k = .resp 429 b) :
    fetch_aux o n k le
      = ((fetch_aux o m (k + 1) le).1, RATE_SLEEP_MS :: (fetch_aux o m (k + 1) le).2) := by
  subst hn
  conv_lhs => unfold fetch_aux
  rw [h]
  simp only [if_pos (Eq.refl (429 : Nat))]
  simp only [if_true]

theorem fetch_aux_httperr (o : Nat → Resp) (n m k : Nat) (le : Option String)
    (status : Nat) (body : Option Json) (hn : n = m + 1)
    (h : o k = .resp status body) (hs : status ≠ 429)
    (h4 : 400 ≤ status ∧ status < 600) :
    fetch_aux o n k le
      = ((fetch_aux o m (k + 1) (some ("HTTPError " ++ toString status))).1,
         RETRY_SLEEP_MS ::
           (fetch_aux o m (k + 1) (some ("HTTPError " ++ toString status))).2) := by
  subst hn
  conv_lhs => unfold fetch_aux
  rw [h]
  simp only [if_neg hs, if_pos h4]

theorem fetch_aux_nojson (o : Nat → Resp) (n m k : Nat) (le : Option String)
    (status : Nat) (hn : n = m + 1) (h : o k = .resp status none)
    (hs : status ≠ 429) (h4 : ¬(400 ≤ status ∧ status < 600)) :
    fetch_aux o n k le
      = ((fetch_aux o m (k + 1) (some "JSONDecodeError")).1,
         RETRY_SLEEP_MS :: (fetch_aux o m (k + 1) (some "JSONDecodeError")).2) := by
  subst hn
  conv_lhs => unfold fetch_aux
  rw [h]
  simp only [if_neg hs, if_neg h4]

theorem fetch_aux_extract_err (o : Nat → Resp) (n m k : Nat) (le : Option String)
    (status : Nat) (js : Json) (e : String) (hn : n = m + 1)
    (h : o k = .resp status (some js)) (hs : status ≠ 429)
    (h4 : ¬(400 ≤ status ∧ status < 600)) (hx : extract_ref_verses js = .error e) :
    fetch_aux o n k le
      = ((fetch_aux o m (k + 1) (some e)).1,
         RETRY_SLEEP_MS :: (fetch_aux o m (k + 1) (some e)).2) := by
  subst hn
  conv_lhs => unfold fetch_aux
  rw [h]
  simp only [if_neg hs, if_neg h4, hx]

theorem fetch_aux_extract_ok (o : Nat → Resp) (n m k : Nat) (le : Option String)
    (status : Nat) (js : Json) (vs : List String) (hn : n = m + 1)
    (h : o k = .resp status (some js)) (hs : status ≠ 429)
    (h4 : ¬(400 ≤ status ∧ status < 600)) (hx : extract_ref_verses js = .ok vs) :
    fetch_aux o n k le = (.ok vs, []) := by
  subst hn
  conv_lhs => unfold fetch_aux
  rw [h]
  simp only [if_neg hs, if_neg h4, hx]

/-- C3 (amended): an HTTP 429 response causes the 2-second sleep and a retry
that records no error but does consume one of the three loop iterations; two
429s followed by a success on the third attempt still return the fetched
verse list (with exactly the two 2-second sleeps and no error); three 429s,
however, exhaust the budget and the fetch raises Fetch-Exhausted carrying
the last recorded error — Python `None`, since a 429 records nothing. -/
theorem fetch_retry_behaviour (o : Nat → Resp) (b0 b1 : Option Json)
    (js : Json) (vs : List String)
    (h0 : o 0 = .resp 429 b0) (h1 : o 1 = .resp 429 b1)
    (h2 : o 2 = .resp 200 (some js)) (hx : extract_ref_verses js = .ok vs) :
    fetch_ref_chapter o = (.ok vs, [RATE_SLEEP_MS, RATE_SLEEP_MS])
    ∧ ∀ o' : Nat → Resp, (∀ k, k < 3 → ∃ b, o' k = .resp 429 b) →
        fetch_ref_chapter o'
          = (.error none, [RATE_SLEEP_MS, RATE_SLEEP_MS, RATE_SLEEP_MS]) := by
  constructor
  · show fetch_aux o 3 0 none = _
    rw [fetch_aux_429 o 3 2 0 none b0 rfl h0,
      fetch_aux_429 o 2 1 1 none b1 rfl h1,
      fetch_aux_extract_ok o 1 0 2 none 200 js vs rfl h2 (by decide) (by decide) hx]
  · intro o' ho
    obtain ⟨c0, hc0⟩ := ho 0 (by omega)
    obtain ⟨c1, hc1⟩ := ho 1 (by omega)
    obtain ⟨c2, hc2⟩ := ho 2 (by omega)
    show fetch_aux o' 3 0 none = _
    rw [fetch_aux_429 o' 3 2 0 none c0 rfl hc0,
      fetch_aux_429 o' 2 1 1 none c1 rfl hc1,
      fetch_aux_429 o' 1 0 2 none c2 rfl hc2,
      fetch_aux_zero o' 3 none]

/-- C3 witness: a concrete run with two 429s then a well-formed 200. -/
theorem fetch_retry_behaviour_witness :
    fetch_ref_chapter (fun k => if k < 2 then Resp.resp 429 none
        else Resp.resp 200 (some (Json.obj [("verses",
          Json.arr [Json.obj [("text", Json.str "In the beginning")]])])))
      = (Except.ok ["In the beginning"], [RATE_SLEEP_MS, RATE_SLEEP_MS]) :=
  (fetch_retry_behaviour _ none none
    (Json.obj [("verses", Json.arr [Json.obj [("text", Json.str "In the beginning")]])])
    ["In the beginning"] rfl rfl rfl rfl).1

/-- C3 counterexample: three 429s exhaust the budget of
`for _ in range(RETRY_COUNT)` even though a fourth request would succeed —
the fetch raises with `last_err = None` instead of returning the verse
list, so a 429 retry does consume the retry budget. -/
theorem fetch_429_consumes_budget :
    fetch_ref_chapter (fun k => if k < 3 then Resp.resp 429 none
        else Resp.resp 200 (some (Json.obj [("verses",
          Json.arr [Json.obj [("text", Json.str "In the beginning")]])])))
      = (Except.error none, [RATE_SLEEP_MS, RATE_SLEEP_MS, RATE_SLEEP_MS]) := by
  show fetch_aux _ 3 0 none = _
  rw [fetch_aux_429 _ 3 2 0 none none rfl rfl,
    fetch_aux_429 _ 2 1 1 none none rfl rfl,
    fetch_aux_429 _ 1 0 2 none none rfl rfl,
    fetch_aux_zero _ 3 none]

theorem extract_verses_field_norm (jv : Json) (ts : List String)
    (h : extract_verses_field jv = .ok ts) :
    ∃ raws : List String, ts = raws.map norm_text := by
  cases jv with
  | arr vs =>
    rcases hm : vs.mapM getTextField with _ | texts
    · rw [show extract_verses_field (.arr vs)
          = (match vs.mapM getTextField with
             | some texts => Except.ok (texts.map norm_text)
             | none => Except.error "AttributeError") from rfl, hm] at h
      exact Except.noConfusion h
    · rw [show extract_verses_field (.arr vs)
          = (match vs.mapM getTextField with
             | some texts => Except.ok (texts.map norm_text)
             | none => Except.error "AttributeError") from rfl, hm] at h
      injection h with h2
      exact ⟨texts, h2.symm⟩
  | null => exact Except.noConfusion h
  | bool b => exact Except.noConfusion h
  | num n => exact Except.noConfusion h
  | str s => exact Except.noConfusion h
  | obj kvs => exact Except.noConfusion h

theorem extract_ref_verses_norm (js : Json) (ts : List String)
    (h : extract_ref_verses js = .ok ts) :
    ∃ raws : List String, ts = raws.map norm_text := by
  cases js with
  | obj kvs => exact extract_verses_field_norm _ ts h
  | null => exact Except.noConfusion h
  | bool b => exact Except.noConfusion h
  | num n => exact Except.noConfusion h
  | str s => exact Except.noConfusion h
  | arr vs => exact Except.noConfusion h

theorem fetch_aux_ok_norm (o : Nat → Resp) :
    ∀ (n k : Nat) (le : Option String) (vs : List String),
      (fetch_aux o n k le).1 = .ok vs → ∃ raws : List String, vs = raws.map norm_text := by
  intro n
  induction n with
  | zero =>
    intro k le vs h
    rw [fetch_aux_zero o k le] at h
    exact Except.noConfusion h
  | succ n ih =>
    intro k le vs h
    rcases ho : o k with msg | ⟨status, body⟩
    · rw [fetch_aux_neterr o (n + 1) n k le msg rfl ho] at h
      exact ih (k + 1) (some msg) vs h
    · by_cases h429 : status = 429
      · subst h429
        rw [fetch_aux_429 o (n + 1) n k le body rfl ho] at h
        exact ih (k + 1) le vs h
      · by_cases h4 : 400 ≤ status ∧ status < 600
        · rw [fetch_aux_httperr o (n + 1) n k le status body rfl ho h429 h4] at h
          exact ih (k + 1) _ vs h
        · rcases body with _ | js
          · rw [fetch_aux_nojson o (n + 1) n k le status rfl ho h429 h4] at h
            exact ih (k + 1) _ vs h
          · rcases hx : extract_ref_verses js with e | ts
            · rw [fetch_aux_extract_err o (n + 1) n k le status js e rfl ho h429 h4 hx] at h
              exact ih (k + 1) _ vs h
            · rw [fetch_aux_extract_ok o (n + 1) n k le status js ts rfl ho h429 h4 hx] at h
              have hvs : ts = vs := by
                simpa using h
              subst hvs
              exact extract_ref_verses_norm js ts hx

/-- C4 (amended): Strict normalization is used only inside `first_diff`'s
equality test — the snippets of a content diff are exactly the stored verse
texts at that index.  The reference side is Loose-normalized because
`fetch_ref_chapter` applies `norm_text` to every verse it returns, but the
local side is the raw on-disk text: `read_local_chapter` stores the file's
strings unchanged, so the local snippet is not (in general) a Loose
normalization. -/
theorem snippet_provenance (o : Nat → Resp) (vs : List String)
    (h : (fetch_ref_chapter o).1 = .ok vs) :
    (∃ raws : List String, vs = raws.map norm_text)
    ∧ (∀ (loc ref : List String) (k : Nat) (hk1 : k < loc.length) (hk2 : k < ref.length),
        (∀ j, j < k → ∀ (hj1 : j < loc.length) (hj2 : j < ref.length),
          norm_text_strict (loc.get ⟨j, hj1⟩) = norm_text_strict (ref.get ⟨j, hj2⟩)) →
        norm_text_strict (loc.get ⟨k, hk1⟩) ≠ norm_text_strict (ref.get ⟨k, hk2⟩) →
        first_diff loc ref = (((k + 1 : Nat) : Int), loc.get ⟨k, hk1⟩, ref.get ⟨k, hk2⟩))
    ∧ (∀ texts : List String,
        read_local_verses (Json.obj [("verses", Json.arr (texts.map Json.str))])
          = .ok texts) := by
  refine ⟨fetch_aux_ok_norm o RETRY_COUNT 0 none vs h, ?_, ?_⟩
  · intro loc ref k hk1 hk2 hpre hne
    unfold first_diff
    have := first_diff_aux_at loc.length ref.length k 0 loc ref hk1 hk2 hpre hne
    simpa using this
  · intro texts
    show read_verses_field (((([("verses", Json.arr (texts.map Json.str))]
        : List (String × Json)).lookup "verses")).getD (.arr []))
      = Except.ok texts
    rw [show (([("verses", Json.arr (texts.map Json.str))]
        : List (String × Json)).lookup "verses") = some (Json.arr (texts.map Json.str))
      from rfl]
    rcases texts with _ | ⟨t, ts⟩
    · rfl
    · show Except.ok ((Json.str t :: ts.map Json.str).map pyStr) = Except.ok (t :: ts)
      rw [List.map_cons, List.map_map,
        show (pyStr ∘ Json.str) = id from funext (fun s => rfl), List.map_id]
      rfl

/-- C4 witness: fetched verses are Loose-normalized, the two other branches
at concrete inputs. -/
theorem snippet_provenance_witness :
    (∃ raws : List String, ["In the beginning"] = raws.map norm_text)
    ∧ first_diff ["a  b"] ["c"] = (1, "a  b", "c")
    ∧ read_local_verses (Json.obj [("verses", Json.arr [Json.str "x", Json.str "y"])])
        = Except.ok ["x", "y"] := by
  have h := snippet_provenance
    (fun _ => Resp.resp 200 (some (Json.obj [("verses",
      Json.arr [Json.obj [("text", Json.str "In the beginning")]])])))
    ["In the beginning"]
    (by
      show (fetch_aux _ 3 0 none).1 = Except.ok ["In the beginning"]
      rw [fetch_aux_extract_ok
        (fun _ => Resp.resp 200 (some (Json.obj [("verses",
          Json.arr [Json.obj [("text", Json.str "In the beginning")]])])))
        3 2 0 none 200
        (Json.obj [("verses", Json.arr [Json.obj [("text", Json.str "In the beginning")]])])
        ["In the beginning"] rfl rfl (by decide) (by decide) rfl])
  refine ⟨h.1, ?_, h.2.2 ["x", "y"]⟩
  have h2 := h.2.1 ["a  b"] ["c"] 0 (by decide) (by decide)
    (by intro j hj hj1 hj2; omega)
    (by
      show norm_text_strict "a  b" ≠ norm_text_strict "c"
      decide)
  simpa using h2

/-- C4 counterexample: a local chapter stored as "a  b" (double space) is
read from disk unchanged, `first_diff` reports it as the local snippet
verbatim, and that snippet differs from its own Loose normalization "a b" —
so the local snippet is not the Loose-normalized text the claim demands. -/
theorem local_snippet_not_loose :
    read_local_verses (Json.obj [("verses", Json.arr [Json.str "a  b"])])
      = Except.ok ["a  b"]
    ∧ first_diff ["a  b"] ["c"] = (1, "a  b", "c")
    ∧ norm_text "a  b" = "a b"
    ∧ ("a  b" : String) ≠ norm_text "a  b" :=
  ⟨rfl, by decide, by decide, by decide⟩

/-- The record `main` appends for a chapter (meaningful only when
`chapter_outcome` is `mismatchedChap`; a placeholder otherwise). -/
def mismatch_record (w : World) (book : String) (ch : Int) : MismatchRecord :=
  match read_local_chapter w book ch with
  | .ok lv =>
    match (fetch_ref_chapter (w.responses book ch)).1 with
    | .ok rv =>
      let d := first_diff lv rv
      { book := book
        chapter := ch
        first_diff_verse := d.1
        local_snippet := strTake d.2.1 200
        ref_snippet := strTake d.2.2 200
        local_verse_count := lv.length
        ref_verse_count := rv.length }
    | .error _ =>
      { book := book, chapter := ch, first_diff_verse := 0, local_snippet := ""
        ref_snippet := "", local_verse_count := 0, ref_verse_count := 0 }
  | _ =>
    { book := book, chapter := ch, first_diff_verse := 0, local_snippet := ""
      ref_snippet := "", local_verse_count := 0, ref_verse_count := 0 }

/-- The mismatch records accumulated over a run, in processing order. -/
def mismatch_records (w : World) (books : List String) : List MismatchRecord :=
  books.flatMap (fun b =>
    ((discover_chapters (w.listing b)).filter
      (fun c => chapter_outcome w b c == ChapterOutcome.mismatchedChap)).map
      (mismatch_record w b))

/-- A record that arose from an actual content/length mismatch: a successful
local read, a successful fetch, a non-sentinel `first_diff`, and fields taken
from that comparison with the snippets truncated only after the comparison. -/
def genuine_mismatch (w : World) (m : MismatchRecord) : Prop :=
  ∃ lv rv : List String,
    read_local_chapter w m.book m.chapter = .ok lv
    ∧ (fetch_ref_chapter (w.responses m.book m.chapter)).1 = .ok rv
    ∧ (first_diff lv rv).1 ≠ -1
    ∧ m.first_diff_verse = (first_diff lv rv).1
    ∧ m.local_snippet = strTake (first_diff lv rv).2.1 200
    ∧ m.ref_snippet = strTake (first_diff lv rv).2.2 200
    ∧ m.local_verse_count = lv.length
    ∧ m.ref_verse_count = rv.length

/-- A world with no book directories at the repo root. -/
def wEmpty : World :=
  { dirs := []
    listing := fun _ => []
    file := fun _ _ => none
    responses := fun _ _ _ => .netErr "unreachable" }

/-- A world holding one Genesis chapter that matches the reference. -/
def wMatch : World :=
  { dirs := ["Genesis"]
    listing := fun b => if b = "Genesis" then ["01.json"] else []
    file := fun b name =>
      if b = "Genesis" ∧ name = "01.json" then
        some (.parsed (.obj [("verses", .arr [.str "In the beginning"])]))
      else none
    responses := fun _ _ _ => .resp 200 (some (.obj [("verses",
      .arr [.obj [("text", .str "In the beginning")]])])) }

/-- A world holding one Genesis chapter that differs from the reference. -/
def wMismatch : World :=
  { dirs := ["Genesis"]
    listing := fun b => if b = "Genesis" then ["01.json"] else []
    file := fun b name =>
      if b = "Genesis" ∧ name = "01.json" then
        some (.parsed (.obj [("verses", .arr [.str "xx"])]))
      else none
    responses := fun _ _ _ => .resp 200 (some (.obj [("verses",
      .arr [.obj [("text", .str "yy")]])])) }

/-- The mismatch record the `wMismatch` run produces. -/
def recMismatch : MismatchRecord :=
  { book := "Genesis", chapter := 1, first_diff_verse := 1, local_snippet := "xx"
    ref_snippet := "yy", local_verse_count := 1, ref_verse_count := 1 }

theorem process_chapter_eq (w : World) (b : String) (acc : Summary) (ch : Int) :
    process_chapter w b acc ch
      = { totals := acc.totals + 1
          matched := acc.matched
            + (if chapter_outcome w b ch = .matchedChap then 1 else 0)
          missing := acc.missing
            + (if chapter_outcome w b ch = .missingFile then 1 else 0)
          errors := acc.errors
            + (if chapter_outcome w b ch = .readErr ∨ chapter_outcome w b ch = .fetchErr
               then 1 else 0)
          mismatches := acc.mismatches
            ++ (if chapter_outcome w b ch = .mismatchedChap
                then [mismatch_record w b ch] else []) } := by
  unfold process_chapter chapter_outcome mismatch_record
  rcases hr : read_local_chapter w b ch with _ | e | lv
  · simp
  · simp
  · rcases hf : (fetch_ref_chapter (w.responses b ch)).1 with e | rv
    · simp
    · by_cases hd : (first_diff lv rv).1 = -1
      · simp [hd]
      · simp [hd]

theorem foldl_process_chapter (w : World) (b : String) :
    ∀ (chs : List Int) (acc : Summary),
      chs.foldl (process_chapter w b) acc
        = { totals := acc.totals + chs.length
            matched := acc.matched
              + (chs.map (chapter_outcome w b)).count ChapterOutcome.matchedChap
            missing := acc.missing
              + (chs.map (chapter_outcome w b)).count ChapterOutcome.missingFile
            errors := acc.errors
              + (chs.map (chapter_outcome w b)).count ChapterOutcome.readErr
              + (chs.map (chapter_outcome w b)).count ChapterOutcome.fetchErr
            mismatches := acc.mismatches
              ++ (chs.filter (fun c => chapter_outcome w b c == ChapterOutcome.mismatchedChap)).map
                  (mismatch_record w b) } := by
  intro chs
  induction chs with
  | nil =>
    intro acc
    simp
  | cons c chs ih =>
    intro acc
    rw [List.foldl_cons, process_chapter_eq, ih]
    simp only [List.map_cons, List.count_cons, List.filter_cons, Summary.mk.injEq]
    rcases hoc : chapter_outcome w b c <;>
      simp [hoc, List.append_assoc] <;>
      omega

theorem process_book_eq (w : World) (acc : Summary) (b : String) :
    process_book w acc b
      = { totals := acc.totals + (discover_chapters (w.listing b)).length
          matched := acc.matched
            + ((discover_chapters (w.listing b)).map (chapter_outcome w b)).count
                ChapterOutcome.matchedChap
          missing := acc.missing
            + ((discover_chapters (w.listing b)).map (chapter_outcome w b)).count
                ChapterOutcome.missingFile
          errors := acc.errors
            + ((discover_chapters (w.listing b)).map (chapter_outcome w b)).count
                ChapterOutcome.readErr
            + ((discover_chapters (w.listing b)).map (chapter_outcome w b)).count
                ChapterOutcome.fetchErr
          mismatches := acc.mismatches
            ++ ((discover_chapters (w.listing b)).filter
                (fun c => chapter_outcome w b c == ChapterOutcome.mismatchedChap)).map
                (mismatch_record w b) } := by
  unfold process_book
  by_cases h : discover_chapters (w.listing b) = []
  · rw [if_pos h, h]
    simp
  · rw [if_neg h]
    exact foldl_process_chapter w b _ acc

theorem foldl_process_book (w : World) :
    ∀ (books : List String) (acc : Summary),
      books.foldl (process_book w) acc
        = { totals := acc.totals + (all_outcomes w books).length
            matched := acc.matched + (all_outcomes w books).count ChapterOutcome.matchedChap
            missing := acc.missing + (all_outcomes w books).count ChapterOutcome.missingFile
            errors := acc.errors + (all_outcomes w books).count ChapterOutcome.readErr
              + (all_outcomes w books).count ChapterOutcome.fetchErr
            mismatches := acc.mismatches ++ mismatch_records w books } := by
  intro books
  induction books with
  | nil =>
    intro acc
    simp [all_outcomes, mismatch_records]
  | cons b books ih =>
    intro acc
    rw [List.foldl_cons, process_book_eq, ih]
    simp only [all_outcomes, mismatch_records, List.flatMap_cons, List.length_append,
      List.count_append, Summary.mk.injEq, List.append_assoc, List.length_map]
    refine ⟨by omega, by omega, by omega, by omega, by trivial⟩

theorem run_scan_eq (w : World) (books : List String) :
    run_scan w books
      = { totals := (all_outcomes w books).length
          matched := (all_outcomes w books).count ChapterOutcome.matchedChap
          missing := (all_outcomes w books).count ChapterOutcome.missingFile
          errors := (all_outcomes w books).count ChapterOutcome.readErr
            + (all_outcomes w books).count ChapterOutcome.fetchErr
          mismatches := mismatch_records w books } := by
  unfold run_scan init_summary
  rw [foldl_process_book w books]
  simp

theorem outcomes_partition (l : List ChapterOutcome) :
    l.length = l.count ChapterOutcome.missingFile + l.count ChapterOutcome.readErr
      + l.count ChapterOutcome.fetchErr + l.count ChapterOutcome.matchedChap
      + l.count ChapterOutcome.mismatchedChap := by
  induction l with
  | nil => rfl
  | cons o l ih =>
    rcases o <;> simp [List.count_cons, ih] <;> omega

theorem mismatch_records_length (w : World) (books : List String) :
    (mismatch_records w books).length
      = (all_outcomes w books).count ChapterOutcome.mismatchedChap := by
  unfold mismatch_records all_outcomes
  induction books with
  | nil => rfl
  | cons b books ih =>
    simp only [List.flatMap_cons, List.length_append, List.count_append, ih]
    congr 1
    rw [List.length_map, ← List.countP_eq_length_filter, List.count, List.countP_map]
    rfl

theorem mismatch_records_genuine (w : World) (books : List String) :
    ∀ m ∈ mismatch_records w books, genuine_mismatch w m := by
  intro m hm
  unfold mismatch_records at hm
  rw [List.mem_flatMap] at hm
  obtain ⟨b, _, hm2⟩ := hm
  rw [List.mem_map] at hm2
  obtain ⟨c, hc, hrec⟩ := hm2
  rw [List.mem_filter] at hc
  have ho : chapter_outcome w b c = .mismatchedChap := by
    simpa using hc.2
  unfold chapter_outcome at ho
  rcases hr : read_local_chapter w b c with _ | e | lv
  · rw [hr] at ho; exact ChapterOutcome.noConfusion ho
  · rw [hr] at ho; exact ChapterOutcome.noConfusion ho
  · rcases hf : (fetch_ref_chapter (w.responses b c)).1 with e | rv
    · rw [hr, hf] at ho
      exact ChapterOutcome.noConfusion ho
    · have hd : (first_diff lv rv).1 ≠ -1 := by
        intro hdd
        rw [hr, hf] at ho
        simp [hdd] at ho
      have hmr : mismatch_record w b c
          = { book := b, chapter := c, first_diff_verse := (first_diff lv rv).1
              local_snippet := strTake (first_diff lv rv).2.1 200
              ref_snippet := strTake (first_diff lv rv).2.2 200
              local_verse_count := lv.length, ref_verse_count := rv.length } := by
        unfold mismatch_record
        rw [hr, hf]
      rw [← hrec, hmr]
      exact ⟨lv, rv, hr, hf, hd, rfl, rfl, rfl, rfl, rfl⟩

/-- C7: empty discovery is fatal — `main` returns early, processing no
chapter and writing no report; otherwise the run completes with every
discovered chapter counted in `totals` and every missing-file, read-error
and fetch-exhaustion outcome reflected in the `missing`/`errors` counters:
per-chapter failures are isolated and nothing is dropped from the summary. -/
theorem discovery_and_isolation (w : World) :
    (discover_books w.dirs = [] → main_run w = .noBooks)
    ∧ (discover_books w.dirs ≠ [] →
        ∃ s rep, main_run w = .done s rep
          ∧ s.totals = (all_outcomes w (discover_books w.dirs)).length
          ∧ s.missing = (all_outcomes w (discover_books w.dirs)).count
              ChapterOutcome.missingFile
          ∧ s.errors = (all_outcomes w (discover_books w.dirs)).count
                ChapterOutcome.readErr
              + (all_outcomes w (discover_books w.dirs)).count ChapterOutcome.fetchErr
          ∧ s.matched = (all_outcomes w (discover_books w.dirs)).count
              ChapterOutcome.matchedChap
          ∧ (rep = none ↔ s.mismatches = [])) := by
  constructor
  · intro h
    simp only [main_run]
    rw [if_pos h]
  · intro h
    refine ⟨run_scan w (discover_books w.dirs),
      if (run_scan w (discover_books w.dirs)).mismatches = [] then none
      else some (csv_rows (run_scan w (discover_books w.dirs)).mismatches),
      ?_, ?_, ?_, ?_, ?_, ?_⟩
    · simp only [main_run]
      rw [if_neg h]
    · rw [run_scan_eq]
    · rw [run_scan_eq]
    · rw [run_scan_eq]
    · rw [run_scan_eq]
    · by_cases hm : (run_scan w (discover_books w.dirs)).mismatches = []
      · rw [if_pos hm]
        simp [hm]
      · rw [if_neg hm]
        simp [hm]

/-- C7 witness: a root with no canonical book directory aborts the run. -/
theorem discovery_and_isolation_witness : main_run wEmpty = RunResult.noBooks :=
  (discovery_and_isolation wEmpty).1 rfl

/-- C9: after any completed run, totals = matched + mismatched + missing +
errors: each chapter iteration increments `totals` once and lands in exactly
one of the four buckets. -/
theorem summary_partition (w : World) (s : Summary) (rep : Option (List (List String)))
    (h : main_run w = .done s rep) :
    s.totals = s.matched + s.mismatches.length + s.missing + s.errors := by
  simp only [main_run] at h
  by_cases hb : discover_books w.dirs = []
  · rw [if_pos hb] at h
    exact RunResult.noConfusion h
  · rw [if_neg hb] at h
    injection h with h1 h2
    rw [← h1, run_scan_eq]
    have hp := outcomes_partition (all_outcomes w (discover_books w.dirs))
    have hl := mismatch_records_length w (discover_books w.dirs)
    simp only []
    omega

/-- C9 witness: the partition at a completed one-chapter matching run. -/
theorem summary_partition_witness :
    (Summary.mk 1 1 0 0 []).totals
      = (Summary.mk 1 1 0 0 []).matched + (Summary.mk 1 1 0 0 []).mismatches.length
        + (Summary.mk 1 1 0 0 []).missing + (Summary.mk 1 1 0 0 []).errors :=
  summary_partition wMatch (Summary.mk 1 1 0 0 []) none (by decide)

/-- C8: the report is written iff at least one mismatch was recorded
(replacing any previous file), its contents are the fixed header row
followed by one row per record in the fixed column order, and every
recorded row is a genuine content/length mismatch — a successful read and
fetch whose `first_diff` is not the Match sentinel, with the snippets
truncated to 200 characters only after that comparison; read and fetch
errors never reach the report. -/
theorem report_iff_mismatch (w : World) (s : Summary) (rep : Option (List (List String)))
    (h : main_run w = .done s rep) :
    ((rep ≠ none) ↔ s.mismatches ≠ [])
    ∧ (s.mismatches ≠ [] → rep = some (csv_rows s.mismatches))
    ∧ csv_rows s.mismatches
        = ["book", "chapter", "first_diff_verse",
           "local_verse_count", "ref_verse_count",
           "local_snippet", "ref_snippet"]
          :: s.mismatches.map (fun m =>
              [m.book, toString m.chapter, toString m.first_diff_verse,
               toString m.local_verse_count, toString m.ref_verse_count,
               m.local_snippet, m.ref_snippet])
    ∧ ∀ m ∈ s.mismatches, genuine_mismatch w m := by
  simp only [main_run] at h
  by_cases hb : discover_books w.dirs = []
  · rw [if_pos hb] at h
    exact RunResult.noConfusion h
  · rw [if_neg hb] at h
    injection h with h1 h2
    rw [h1] at h2
    refine ⟨?_, ?_, rfl, ?_⟩
    · rw [← h2]
      by_cases hm : s.mismatches = []
      · rw [if_pos hm]
        simp [hm]
      · rw [if_neg hm]
        simp [hm]
    · intro hm
      rw [← h2, if_neg hm]
    · intro m hm
      have hs : s.mismatches = mismatch_records w (discover_books w.dirs) := by
        rw [← h1, run_scan_eq]
      rw [hs] at hm
      exact mismatch_records_genuine w _ m hm

/-- C8 witness: the one mismatch of the `wMismatch` run is genuine. -/
theorem report_iff_mismatch_witness : genuine_mismatch wMismatch recMismatch := by
  have h := report_iff_mismatch wMismatch
    (Summary.mk 1 0 0 0 [recMismatch]) (some (csv_rows [recMismatch])) (by decide)
  exact h.2.2.2 recMismatch (by simp)

/-- C10: a chapter file parsing to a JSON object without a "verses" field,
or with an empty "verses" list, yields an empty VerseList with no error —
`read_local_chapter` returns it as a comparable chapter, not a
LocalReadError — and for a non-empty list the records-vs-strings shape is
decided solely by the first element: a non-dict first element sends every
element (later dicts included) through `str`, a dict first element sends
every element through `.get("text", "")`. -/
theorem read_verses_shape (kvs : List (String × Json)) (v0 : Json)
    (rest : List Json) (fields : List (String × Json)) :
    (kvs.lookup "verses" = none → read_local_verses (.obj kvs) = .ok [])
    ∧ (kvs.lookup "verses" = some (.arr []) → read_local_verses (.obj kvs) = .ok [])
    ∧ (kvs.lookup "verses" = some (.arr (v0 :: rest)) → (∀ fs, v0 ≠ .obj fs) →
        read_local_verses (.obj kvs) = .ok ((v0 :: rest).map pyStr))
    ∧ (kvs.lookup "verses" = some (.arr (.obj fields :: rest)) →
        read_local_verses (.obj kvs)
          = match (Json.obj fields :: rest).mapM getTextField with
            | some texts => .ok texts
            | none => .error "AttributeError")
    ∧ (∀ (w : World) (b : String) (c : Int),
        w.file b (pyFormat02 c ++ ".json") = some (.parsed (.obj kvs)) →
        kvs.lookup "verses" = none →
        read_local_chapter w b c = .ok []) := by
  have hrv : ∀ jv, kvs.lookup "verses" = jv →
      read_local_verses (.obj kvs) = read_verses_field (jv.getD (.arr [])) := by
    intro jv hjv
    show read_verses_field _ = _
    rw [hjv]
  refine ⟨?_, ?_, ?_, ?_, ?_⟩
  · intro h
    rw [hrv none h]
    rfl
  · intro h
    rw [hrv _ h]
    rfl
  · intro h hne
    rw [hrv _ h]
    cases v0 with
    | obj fs => exact absurd rfl (hne fs)
    | null => rfl
    | bool b => rfl
    | num n => rfl
    | str s => rfl
    | arr xs => rfl
  · intro h
    rw [hrv _ h]
    rfl
  · intro w b c hf h
    have h1 : read_local_verses (.obj kvs) = .ok [] := by
      rw [hrv none h]
      rfl
    simp [read_local_chapter, hf, h1]

/-- C10 witness: a verse-less object reads as the empty chapter, and a mixed
list whose first element is a plain string sends the later dict through
`str`. -/
theorem read_verses_shape_witness :
    read_local_verses (Json.obj [("book", Json.str "Genesis")]) = Except.ok []
    ∧ read_local_verses (Json.obj [("verses",
        Json.arr [Json.str "a", Json.obj [("text", Json.str "b")]])])
      = Except.ok ["a", "\x7b'text': 'b'\x7d"] := by
  constructor
  · exact (read_verses_shape [("book", Json.str "Genesis")] Json.null [] []).1 rfl
  · have h := (read_verses_shape
      [("verses", Json.arr [Json.str "a", Json.obj [("text", Json.str "b")]])]
      (Json.str "a") [Json.obj [("text", Json.str "b")]] []).2.2.1 rfl
      (fun fs hfs => Json.noConfusion hfs)
    exact h.trans rfl
